import Mathlib

/-!
Verification of the benchmark driver in bencharch_footer.cpp.

The program measures a compute kernel: after argument validation it runs a
fixed warmup, collects N timed samples, sorts them, and reports the mean of a
percentile window of the sorted samples.

Modelling conventions:
* C doubles are modelled as exact rationals.  All percentile parameters and
  timing samples become elements of the rational numbers; the cast
  static_cast of a non-negative double to size_t is truncation toward zero,
  which on non-negative values is the floor, modelled by Int.floor composed
  with Int.toNat.
* size_t values are naturals below 2 ^ 64; the one subtraction that can wrap
  (measurements.size() - 1 on an empty vector, line 129) is modelled by
  size_t_sub, explicit arithmetic modulo 2 ^ 64.  The two other subtractions
  in the source cannot wrap: upper_index - 1 on line 130 is guarded by
  upper_index > 0, and sample_size on line 132 has lower_index less than or
  equal to upper_index after the adjustment of line 130 (lemma
  lower_index_adjusted_le below), so plain truncated natural subtraction is
  exact for them.
* std::sort is modelled by List.insertionSort with the order on rationals;
  the source only uses the sortedness and multiset of the result.
-/

namespace BenchArch

/-- The modulus of size_t arithmetic. -/
def SIZE_T_MOD : Nat := 2 ^ 64

/-- Subtraction in size_t arithmetic: wraps modulo 2 ^ 64 when b exceeds a
(defined for a, b below the modulus, as all sizes in the program are). -/
def size_t_sub (a b : Nat) : Nat := (a + SIZE_T_MOD - b) % SIZE_T_MOD

/-- Line 125 and line 126: static_cast to size_t of (n * percentile) / 100.0
for a non-negative double percentile, i.e. the floor. -/
def raw_index (n : Nat) (percentile : ℚ) : Nat :=
  (⌊((n : ℚ) * percentile) / 100⌋).toNat

/-- Lines 126 and 129: upper_index after the clamp
if (upper_index >= measurements.size()) upper_index = measurements.size() - 1,
where the subtraction is size_t subtraction (it wraps when n = 0). -/
def upper_index (n : Nat) (upper_percentile : ℚ) : Nat :=
  let u := raw_index n upper_percentile
  if u ≥ n then size_t_sub n 1 else u

/-- Lines 125 and 130: lower_index after the adjustment
if (lower_index >= upper_index) lower_index = upper_index > 0 ? upper_index - 1 : 0.
The subtraction upper_index - 1 is guarded by upper_index > 0, so it cannot
wrap and truncated subtraction is exact. -/
def lower_index (n : Nat) (lower_percentile upper_percentile : ℚ) : Nat :=
  let l := raw_index n lower_percentile
  let u := upper_index n upper_percentile
  if l ≥ u then (if u > 0 then u - 1 else 0) else l

/-- Lines 132 and 133: sample_size = upper_index - lower_index, forced to 1
when below 1.  After the adjustment of line 130 lower_index never exceeds
upper_index (lemma lower_index_adjusted_le), so the size_t subtraction cannot
wrap and truncated subtraction is exact. -/
def sample_size (n : Nat) (lower_percentile upper_percentile : ℚ) : Nat :=
  let s := upper_index n upper_percentile - lower_index n lower_percentile upper_percentile
  if s < 1 then 1 else s

/-- Lines 136 to 139: the summation loop over the half-open index range
from lower_index to upper_index of the sorted measurement list.  An index read
is modelled by List.getD with default 0; the safety claims show the default is
never consulted on the valid input domain. -/
def trimmed_sum (measurements : List ℚ) (lower_percentile upper_percentile : ℚ) : ℚ :=
  ∑ i ∈ Finset.Ico (lower_index measurements.length lower_percentile upper_percentile)
      (upper_index measurements.length upper_percentile),
    measurements.getD i 0

/-- Line 140: result = sum / sample_size, on an already sorted measurement
list. -/
def estimate (measurements : List ℚ) (lower_percentile upper_percentile : ℚ) : ℚ :=
  trimmed_sum measurements lower_percentile upper_percentile /
    (sample_size measurements.length lower_percentile upper_percentile : ℚ)

/-- Lines 122 to 140: the full Estimator, sorting the raw measurements
ascending (line 122) and then computing the trimmed mean. -/
def estimator (measurements : List ℚ) (lower_percentile upper_percentile : ℚ) : ℚ :=
  estimate (measurements.insertionSort (· ≤ ·)) lower_percentile upper_percentile

/-- Lines 122 to 143 viewed as a state transformer: std::sort mutates the
measurement vector in place, so one run of the estimation phase returns both
the sorted vector and the printed scalar. -/
def estimator_run (measurements : List ℚ) (lower_percentile upper_percentile : ℚ) :
    List ℚ × ℚ :=
  let sorted := measurements.insertionSort (· ≤ ·)
  (sorted, estimate sorted lower_percentile upper_percentile)

/-! ## Sampler (lines 104 to 119)

The kernel is opaque: an abstract state type with a transition function
models d->compute (the call mutates the DSP object and the buffers; both are
folded into the abstract state).  The two clock readings around the i-th
timed call determine one elapsed duration; since the clock is an external
collaborator, the duration of the i-th measured invocation is an abstract
input, a function from the invocation number to a rational number of
seconds. -/

/-- Line 105: the fixed warmup iteration count, a literal in the source and
not tunable from the command line. -/
def WARMUP_COUNT : Nat := 50

/-- Lines 105 to 107: the warmup loop runs the kernel WARMUP_COUNT times and
records nothing. -/
def warmup {K : Type} (compute : K → K) (k : K) : K :=
  compute^[WARMUP_COUNT] k

/-- Lines 113 to 119: the measurement loop.  State k is the kernel state, i
the index of the next timed invocation, and the third argument the number of
invocations still to run.  Each iteration runs the kernel once and appends
one elapsed-time sample, in invocation order. -/
def measure_loop {K : Type} (compute : K → K) (elapsed : Nat → ℚ) :
    K → Nat → Nat → K × List ℚ
  | k, _, 0 => (k, [])
  | k, i, m + 1 =>
    let k1 := compute k
    let rest := measure_loop compute elapsed k1 (i + 1) m
    (rest.1, elapsed i :: rest.2)

/-- Lines 104 to 119: the full Sampler, warmup followed by N timed
invocations. -/
def sampler {K : Type} (compute : K → K) (elapsed : Nat → ℚ) (k : K) (N : Nat) :
    K × List ℚ :=
  measure_loop compute elapsed (warmup compute k) 0 N

/-! ## Command-line validation (lines 9 to 75)

The strtol and strtod calls are modelled by their outcomes: an Option that
is none exactly when the source reports a conversion failure (errno set, or
no digits found).  The iteration-count default NBITERATIONS comes from a
build-time header that is not part of this file, so the validator is
parametric in it. -/

/-- Outcome of the validation phase: err models any early return 1 before
the kernel is constructed; ok carries the accepted iteration count, upper
percentile and lower percentile handed to the measurement core. -/
inductive ArgResult where
  | err : ArgResult
  | ok : Int → ℚ → ℚ → ArgResult
deriving DecidableEq

/-- Lines 18 to 34: the iteration count is argv[1] when argc is at least 2
(none models a strtol failure) and the built-in default otherwise.  No sign
or range check is performed on the parsed value. -/
def parsed_iterations (defaultN : Int) (argc : Nat) (a1 : Option Int) : Option Int :=
  if 2 ≤ argc then a1 else some defaultN

/-- Lines 36 to 52: the upper percentile is argv[2] when argc is at least 3,
rejected unless it lies in (0, 100], and 10 otherwise. -/
def parsed_upper (argc : Nat) (a2 : Option ℚ) : Option ℚ :=
  if 3 ≤ argc then
    match a2 with
    | none => none
    | some v => if v ≤ 0 ∨ 100 < v then none else some v
  else some 10

/-- Lines 54 to 70: the lower percentile is argv[3] when argc is at least 4,
rejected unless it lies in [0, 100), and 1 otherwise. -/
def parsed_lower (argc : Nat) (a3 : Option ℚ) : Option ℚ :=
  if 4 ≤ argc then
    match a3 with
    | none => none
    | some v => if v < 0 ∨ 100 ≤ v then none else some v
  else some 1

/-- Lines 9 to 75: the whole validation phase.  An argc above 4 prints usage
and exits; a failed conversion or out-of-range percentile exits; a lower
percentile not strictly below the upper percentile exits; otherwise the
accepted configuration reaches the measurement core. -/
def validateArgs (defaultN : Int) (argc : Nat) (a1 : Option Int)
    (a2 a3 : Option ℚ) : ArgResult :=
  if 4 < argc then ArgResult.err
  else
    match parsed_iterations defaultN argc a1, parsed_upper argc a2,
        parsed_lower argc a3 with
    | some n, some u, some l =>
      if l ≥ u then ArgResult.err else ArgResult.ok n u l
    | _, _, _ => ArgResult.err

/-! ## The Estimator algorithm as the design document states it

Steps 1 to 7 of the Robust Estimator contract, transcribed literally with
exact natural-number index arithmetic (no machine subtraction), to compare
against the implementation model above. -/

/-- Step 2: lowerIndex and upperIndex are the floor of N times the
percentile over 100. -/
def spec_index (N : Nat) (percentile : ℚ) : Nat :=
  (⌊(N : ℚ) * percentile / 100⌋).toNat

/-- Step 3: clamp upperIndex to N - 1 if it reaches or exceeds N. -/
def spec_upper_index (N : Nat) (upperPercentile : ℚ) : Nat :=
  if N ≤ spec_index N upperPercentile then N - 1 else spec_index N upperPercentile

/-- Step 4: if lowerIndex is at least upperIndex, move it to upperIndex - 1
when upperIndex is positive and to 0 otherwise. -/
def spec_lower_index (N : Nat) (lowerPercentile upperPercentile : ℚ) : Nat :=
  if spec_upper_index N upperPercentile ≤ spec_index N lowerPercentile then
    (if 0 < spec_upper_index N upperPercentile then
      spec_upper_index N upperPercentile - 1
    else 0)
  else spec_index N lowerPercentile

/-- Step 5: sampleSize is upperIndex - lowerIndex, forced to 1 when it is
0. -/
def spec_sample_size (N : Nat) (lowerPercentile upperPercentile : ℚ) : Nat :=
  if spec_upper_index N upperPercentile - spec_lower_index N lowerPercentile upperPercentile = 0
  then 1
  else spec_upper_index N upperPercentile - spec_lower_index N lowerPercentile upperPercentile

/-- Steps 1, 6 and 7: sort ascending, sum the sorted samples over the
half-open range from lowerIndex to upperIndex, and divide by sampleSize. -/
def spec_trimmed_mean (samples : List ℚ) (lowerPercentile upperPercentile : ℚ) : ℚ :=
  let sorted := samples.insertionSort (· ≤ ·)
  let N := samples.length
  (∑ i ∈ Finset.Ico (spec_lower_index N lowerPercentile upperPercentile)
      (spec_upper_index N upperPercentile), sorted.getD i 0) /
    (spec_sample_size N lowerPercentile upperPercentile : ℚ)

/-! ## Helper lemmas -/

/-- size_t subtraction agrees with truncated subtraction whenever the
subtrahend does not exceed the minuend and the minuend is a representable
size. -/
theorem size_t_sub_eq {a b : Nat} (hb : b ≤ a) (ha : a < SIZE_T_MOD) :
    size_t_sub a b = a - b := by
  have hM : SIZE_T_MOD = 2 ^ 64 := rfl
  simp only [size_t_sub, hM] at *
  omega

/-- sample_size is positive whatever the inputs: the final guard forces it to
at least 1. -/
theorem sample_size_pos (n : Nat) (lo up : ℚ) : 0 < sample_size n lo up := by
  simp only [sample_size]
  split_ifs <;> omega

/-- The raw percentile index is below n whenever the percentile is below 100
and n is positive. -/
theorem raw_index_lt {n : Nat} {p : ℚ} (hn : 1 ≤ n) (hp : p < 100) :
    raw_index n p < n := by
  have hfloor : ⌊((n : ℚ) * p) / 100⌋ < (n : ℤ) := by
    rw [Int.floor_lt]
    have hn0 : (0 : ℚ) < (n : ℚ) := by exact_mod_cast hn
    push_cast
    rw [div_lt_iff₀ (by norm_num : (0:ℚ) < 100)]
    exact mul_lt_mul_of_pos_left hp hn0
  simp only [raw_index]
  omega

/-- The raw percentile index is monotone in the percentile. -/
theorem raw_index_mono (n : Nat) {p q : ℚ} (h : p ≤ q) :
    raw_index n p ≤ raw_index n q := by
  simp only [raw_index]
  have hfl : ⌊((n : ℚ) * p) / 100⌋ ≤ ⌊((n : ℚ) * q) / 100⌋ := by
    have hpq : (n : ℚ) * p ≤ (n : ℚ) * q := mul_le_mul_of_nonneg_left h (by positivity)
    apply Int.floor_mono
    linarith
  omega

/-- With a positive sample count and an upper percentile below 100 the clamp
on line 129 is inactive. -/
theorem upper_index_eq {n : Nat} {p : ℚ} (hn : 1 ≤ n) (hp : p < 100) :
    upper_index n p = raw_index n p := by
  have h := raw_index_lt hn hp
  simp only [upper_index, ge_iff_le]
  rw [if_neg (by omega)]

/-- After the adjustment on line 130 the lower index never exceeds the upper
index, so the sample_size subtraction cannot wrap. -/
theorem lower_index_adjusted_le (n : Nat) (lo up : ℚ) :
    lower_index n lo up ≤ upper_index n up := by
  simp only [lower_index, ge_iff_le, gt_iff_lt]
  split_ifs <;> omega

/-- The adjusted window can be empty only at index 0: if the adjusted lower
index equals the clamped upper index then both are 0. -/
theorem lower_index_eq_upper (n : Nat) (lo up : ℚ)
    (h : lower_index n lo up = upper_index n up) :
    upper_index n up = 0 := by
  simp only [lower_index, ge_iff_le, gt_iff_lt] at h
  split_ifs at h <;> omega

/-- Closed form of sample_size on the valid domain: the window width when the
raw window is non-empty, and 1 otherwise. -/
theorem sample_size_closed {n : Nat} (lo : ℚ) {up : ℚ} (hn : 1 ≤ n) (hp : up < 100) :
    sample_size n lo up =
      if raw_index n lo < raw_index n up
      then raw_index n up - raw_index n lo
      else 1 := by
  have hu := upper_index_eq hn hp
  simp only [sample_size, lower_index, hu, ge_iff_le, gt_iff_lt]
  split_ifs <;> omega

/-- Unfolding of the measurement loop: starting at invocation index i with m
iterations left, it applies the kernel m times and returns the elapsed times
of invocations i, i + 1, ..., i + m - 1 in order. -/
theorem measure_loop_eq {K : Type} (compute : K → K) (elapsed : Nat → ℚ)
    (k : K) (i m : Nat) :
    measure_loop compute elapsed k i m =
      (compute^[m] k, (List.range' i m).map elapsed) := by
  induction m generalizing k i with
  | zero => simp [measure_loop]
  | succ m ih =>
    simp only [measure_loop, ih, List.map, Function.iterate_succ_apply,
      List.range'_succ]

/-- The collapsed percentile window on a singleton sample list: both indices
are 0, the summation range is empty, and the result is 0 whatever the sample
value. -/
theorem estimator_singleton_collapse (x : ℚ) : estimator [x] 1 10 = 0 := by
  have hs : List.insertionSort (· ≤ ·) [x] = [x] := rfl
  rw [estimator, hs, estimate, trimmed_sum]
  have h1 : upper_index 1 10 = 0 := by norm_num [upper_index, raw_index]
  have h2 : lower_index 1 1 10 = 0 := by norm_num [lower_index, upper_index, raw_index]
  norm_num [h1, h2]

/-- The collapsed percentile window on five samples with the (1, 5) band:
both indices are 0 and the result is 0, not the fastest sample. -/
theorem estimator_fast_band_collapse : estimator [(10:ℚ), 20, 30, 40, 50] 1 5 = 0 := by
  have hs : List.insertionSort (· ≤ ·) [(10:ℚ), 20, 30, 40, 50] = [10, 20, 30, 40, 50] :=
    List.Sorted.insertionSort_eq (by decide)
  rw [estimator, hs, estimate, trimmed_sum]
  have h1 : upper_index 5 5 = 0 := by norm_num [upper_index, raw_index]
  have h2 : lower_index 5 1 5 = 0 := by norm_num [lower_index, upper_index, raw_index]
  norm_num [h1, h2]

/-! ## Claims -/

/-- C1: for every iteration count N at least 1 and every percentile band
with 0 <= lower < upper < 100, the Estimator index computation, clamping,
summation loop and final division access only indices in [0, N) of the
sorted sample sequence (every summation index is below N) and never divide
by zero (sample_size is positive). -/
theorem C1_estimator_index_safety (n : Nat) (lo up : ℚ)
    (hn : 1 ≤ n) (h0 : 0 ≤ lo) (hlu : lo < up) (hup : up < 100) :
    (∀ i ∈ Finset.Ico (lower_index n lo up) (upper_index n up), i < n) ∧
    0 < sample_size n lo up := by
  refine ⟨?_, sample_size_pos n lo up⟩
  intro i hi
  rw [Finset.mem_Ico] at hi
  have h1 := raw_index_lt hn hup
  have h2 := upper_index_eq hn hup
  omega

/-- Witness for C1 at N = 1 with band (1, 10). -/
theorem C1_estimator_index_safety_witness :
    (∀ i ∈ Finset.Ico (lower_index 1 1 10) (upper_index 1 10), i < 1) ∧
    0 < sample_size 1 1 10 :=
  C1_estimator_index_safety 1 1 10 (by norm_num) (by norm_num) (by norm_num)
    (by norm_num)

/-- C2 counterexample: on sorted samples [10, 20, 30, 40, 50] with band
(1, 5) the Estimator does not return the first sample 10; the collapsed
window sums no terms, so the result is 0. -/
theorem C2_collapsed_window_cex :
    estimator [(10:ℚ), 20, 30, 40, 50] 1 5 = 0 ∧
    estimator [(10:ℚ), 20, 30, 40, 50] 1 5 ≠ 10 := by
  have h := estimator_fast_band_collapse
  exact ⟨h, by rw [h]; norm_num⟩

/-- C2 amended: when the computed percentile window collapses to the single
point at index 0, the summation range [0, 0) is empty and the Estimator
returns 0 regardless of the sample values: for N = 1 with band (1, 10) the
result is 0, and for samples [10, 20, 30, 40, 50] with band (1, 5) the
result is 0, not the fastest sample. -/
theorem C2_collapsed_window_amended :
    (∀ x : ℚ, estimator [x] 1 10 = 0) ∧
    estimator [(10:ℚ), 20, 30, 40, 50] 1 5 = 0 :=
  ⟨estimator_singleton_collapse, estimator_fast_band_collapse⟩

/-- C3 counterexample: on samples [10, 20, 30, 40, 50] with the valid band
(1, 5) the result 0 lies strictly below the minimum sample 10, so the
Estimator result does not always lie within [min samples, max samples]. -/
theorem C3_mean_bounds_cex :
    ((10:ℚ) ∈ [(10:ℚ), 20, 30, 40, 50]) ∧
    (∀ x ∈ [(10:ℚ), 20, 30, 40, 50], (10:ℚ) ≤ x) ∧
    ¬ (10:ℚ) ≤ estimator [(10:ℚ), 20, 30, 40, 50] 1 5 := by
  refine ⟨by simp, by decide, ?_⟩
  rw [estimator_fast_band_collapse]
  norm_num

/-- C3 amended: for every non-empty SampleSet and valid PercentileBand whose
adjusted index window is non-empty, the Estimator result is an arithmetic
mean of samples and lies within [min samples, max samples] (stated with
arbitrary bounds m and M enclosing all samples); when the window is empty
the result is 0 instead. -/
theorem C3_mean_bounds_amended (samples : List ℚ) (lo up m M : ℚ)
    (hn : 1 ≤ samples.length) (h0 : 0 ≤ lo) (hlu : lo < up) (hup : up < 100)
    (hwin : lower_index samples.length lo up < upper_index samples.length up)
    (hm : ∀ x ∈ samples, m ≤ x) (hM : ∀ x ∈ samples, x ≤ M) :
    m ≤ estimator samples lo up ∧ estimator samples lo up ≤ M := by
  set n := samples.length with hn_def
  set sorted := samples.insertionSort (· ≤ ·) with hsorted_def
  have hlen : sorted.length = n := List.length_insertionSort _ _
  have hui_lt : upper_index n up < n := by
    rw [upper_index_eq hn hup]; exact raw_index_lt hn hup
  set li := lower_index n lo up with hli_def
  set ui := upper_index n up with hui_def
  have hbound : ∀ i ∈ Finset.Ico li ui,
      m ≤ sorted.getD i 0 ∧ sorted.getD i 0 ≤ M := by
    intro i hi
    rw [Finset.mem_Ico] at hi
    have hilt : i < sorted.length := by omega
    have hmem0 : sorted.getD i 0 ∈ sorted := by
      rw [List.getD_eq_getElem sorted 0 hilt]
      exact List.getElem_mem hilt
    have hmem : sorted.getD i 0 ∈ samples := by
      rw [hsorted_def] at hmem0
      exact (List.mem_insertionSort _).mp hmem0
    exact ⟨hm _ hmem, hM _ hmem⟩
  have hsz : sample_size n lo up = ui - li := by
    rw [sample_size_closed lo hn hup]
    rw [hli_def, hui_def, upper_index_eq hn hup] at hwin ⊢
    simp only [lower_index, upper_index_eq hn hup, ge_iff_le, gt_iff_lt]
      at hwin ⊢
    split_ifs at hwin ⊢ <;> omega
  have hres : estimator samples lo up =
      (∑ i ∈ Finset.Ico li ui, sorted.getD i 0) / ((ui - li : Nat) : ℚ) := by
    rw [estimator, estimate, trimmed_sum, ← hsorted_def, hlen, ← hli_def,
      ← hui_def, hsz]
  have hcard : (Finset.Ico li ui).card = ui - li := Nat.card_Ico li ui
  have hpos : (0 : ℚ) < ((ui - li : Nat) : ℚ) := by
    have : 0 < ui - li := by omega
    exact_mod_cast this
  constructor
  · rw [hres, le_div_iff₀ hpos]
    have := Finset.card_nsmul_le_sum (Finset.Ico li ui) (fun i => sorted.getD i 0)
      m (fun i hi => (hbound i hi).1)
    rw [hcard, nsmul_eq_mul] at this
    linarith
  · rw [hres, div_le_iff₀ hpos]
    have := Finset.sum_le_card_nsmul (Finset.Ico li ui) (fun i => sorted.getD i 0)
      M (fun i hi => (hbound i hi).2)
    rw [hcard, nsmul_eq_mul] at this
    linarith

/-- Witness for the amended C3 on samples [1, ..., 10] with band (10, 90)
and bounds 1 and 10. -/
theorem C3_mean_bounds_amended_witness :
    1 ≤ estimator [(1:ℚ), 2, 3, 4, 5, 6, 7, 8, 9, 10] 10 90 ∧
    estimator [(1:ℚ), 2, 3, 4, 5, 6, 7, 8, 9, 10] 10 90 ≤ 10 :=
  C3_mean_bounds_amended [(1:ℚ), 2, 3, 4, 5, 6, 7, 8, 9, 10] 10 90 1 10
    (by norm_num) (by norm_num) (by norm_num) (by norm_num)
    (by norm_num [lower_index, upper_index, raw_index])
    (by decide) (by decide)

/-- C4: the validation layer does reject the inverted band of the argument
vector prog 1000 5 10 (lower 10 not below upper 5) with an early non-zero
exit, but it does not reject a non-positive iteration count: both 0 and -5
parse successfully and reach the measurement core, contradicting the
documented positive-integer contract (the parameter d is the built-in
default iteration count, irrelevant here). -/
theorem C4_validation_gap (d : Int) :
    validateArgs d 4 (some 1000) (some 5) (some 10) = ArgResult.err ∧
    validateArgs d 2 (some 0) none none = ArgResult.ok 0 10 1 ∧
    validateArgs d 2 (some (-5)) none none = ArgResult.ok (-5) 10 1 := by
  refine ⟨?_, ?_, ?_⟩ <;>
    norm_num [validateArgs, parsed_iterations, parsed_upper, parsed_lower]

/-- Witness for C4 with the built-in default instantiated to 1000. -/
theorem C4_validation_gap_witness :
    validateArgs 1000 4 (some 1000) (some 5) (some 10) = ArgResult.err ∧
    validateArgs 1000 2 (some 0) none none = ArgResult.ok 0 10 1 ∧
    validateArgs 1000 2 (some (-5)) none none = ArgResult.ok (-5) 10 1 :=
  C4_validation_gap 1000

/-- C5: the Estimator computes exactly the algorithm of the design document
(sort ascending, floor indices, clamp, adjust, force the divisor to at least
1, sum over the half-open window, divide), for every sample list whose
length is a representable positive size and every percentile pair; and on
samples [1, ..., 10] with band (10, 90) the result is 11/2. -/
theorem C5_estimator_refines_spec :
    (∀ (samples : List ℚ) (lo up : ℚ), 1 ≤ samples.length →
      samples.length < SIZE_T_MOD →
      estimator samples lo up = spec_trimmed_mean samples lo up) ∧
    estimator [(1:ℚ), 2, 3, 4, 5, 6, 7, 8, 9, 10] 10 90 = 11 / 2 := by
  have hup_eq : ∀ (n : Nat) (p : ℚ), 1 ≤ n → n < SIZE_T_MOD →
      upper_index n p = spec_upper_index n p := by
    intro n p h1 h2
    simp only [upper_index, spec_upper_index, spec_index, raw_index, ge_iff_le]
    rw [size_t_sub_eq (by omega) h2]
  have hlo_eq : ∀ (n : Nat) (lo up : ℚ), 1 ≤ n → n < SIZE_T_MOD →
      lower_index n lo up = spec_lower_index n lo up := by
    intro n lo up h1 h2
    simp only [lower_index, spec_lower_index, hup_eq n up h1 h2, spec_index,
      raw_index, ge_iff_le, gt_iff_lt]
  have hsz_eq : ∀ (n : Nat) (lo up : ℚ), 1 ≤ n → n < SIZE_T_MOD →
      sample_size n lo up = spec_sample_size n lo up := by
    intro n lo up h1 h2
    simp only [sample_size, spec_sample_size, hup_eq n up h1 h2,
      hlo_eq n lo up h1 h2, Nat.lt_one_iff]
  constructor
  · intro samples lo up h1 h2
    simp only [estimator, estimate, trimmed_sum, spec_trimmed_mean,
      List.length_insertionSort, hup_eq samples.length up h1 h2,
      hlo_eq samples.length lo up h1 h2, hsz_eq samples.length lo up h1 h2]
  · have hsort : ([(1:ℚ), 2, 3, 4, 5, 6, 7, 8, 9, 10] : List ℚ).insertionSort (· ≤ ·) =
        [1, 2, 3, 4, 5, 6, 7, 8, 9, 10] :=
      List.Sorted.insertionSort_eq (by decide)
    have hu : upper_index 10 90 = 9 := by
      rw [upper_index]; norm_num [raw_index]; decide
    have hl : lower_index 10 10 90 = 1 := by
      rw [lower_index]; norm_num [upper_index, raw_index]
    have hs : sample_size 10 10 90 = 8 := by rw [sample_size, hu, hl]; norm_num
    rw [estimator, hsort, estimate]
    show trimmed_sum _ 10 90 / ((sample_size 10 10 90 : Nat) : ℚ) = 11 / 2
    rw [hs, trimmed_sum]
    show (∑ i ∈ Finset.Ico (lower_index 10 10 90) (upper_index 10 90), _) / _ = 11 / 2
    rw [hl, hu]
    norm_num [Finset.sum_Ico_eq_sum_range, Finset.sum_range_succ]

/-- Witness for C5: the universal refinement applied to the two-element
sample list [3, 1] with band (1, 60). -/
theorem C5_estimator_refines_spec_witness :
    estimator [(3:ℚ), 1] 1 60 = spec_trimmed_mean [(3:ℚ), 1] 1 60 :=
  C5_estimator_refines_spec.1 [(3:ℚ), 1] 1 60 (by norm_num)
    (by norm_num [SIZE_T_MOD])

/-- C6: for every iteration count N at least 1, the Sampler first runs the
kernel a fixed warmup count of times recording nothing, then runs it exactly
N more times, producing exactly the elapsed-time samples of invocations
0, ..., N - 1 in invocation order, with the kernel advanced by exactly
WARMUP_COUNT + N applications in total. -/
theorem C6_sampler_shape (K : Type) (compute : K → K) (elapsed : Nat → ℚ)
    (k : K) (N : Nat) (hN : 1 ≤ N) :
    (sampler compute elapsed k N).2 = (List.range N).map elapsed ∧
    (sampler compute elapsed k N).1 = compute^[WARMUP_COUNT + N] k := by
  rw [sampler, warmup, measure_loop_eq]
  constructor
  · simp [List.range_eq_range']
  · rw [← Function.iterate_add_apply, Nat.add_comm]

/-- Witness for C6 with the successor kernel on naturals, the identity
elapsed-time assignment and N = 2. -/
theorem C6_sampler_shape_witness :
    (sampler Nat.succ (fun i => (i : ℚ)) 0 2).2 =
      (List.range 2).map (fun i => (i : ℚ)) ∧
    (sampler Nat.succ (fun i => (i : ℚ)) 0 2).1 = Nat.succ^[WARMUP_COUNT + 2] 0 :=
  C6_sampler_shape Nat Nat.succ (fun i => (i : ℚ)) 0 2 (by norm_num)

/-- C7: widening a valid percentile band (smaller or equal lower percentile,
larger or equal upper percentile, still within bounds) never decreases the
effective sample_size computed after clamping, adjustment and forcing to at
least 1. -/
theorem C7_sample_size_monotone (n : Nat) (l1 u1 l2 u2 : ℚ) (hn : 1 ≤ n)
    (h01 : 0 ≤ l1) (h11 : l1 < u1) (hu1 : u1 < 100)
    (h02 : 0 ≤ l2) (h22 : l2 < u2) (hu2 : u2 < 100)
    (hwidenl : l2 ≤ l1) (hwidenu : u1 ≤ u2) :
    sample_size n l1 u1 ≤ sample_size n l2 u2 := by
  rw [sample_size_closed l1 hn hu1, sample_size_closed l2 hn hu2]
  have hL := raw_index_mono n hwidenl
  have hU := raw_index_mono n hwidenu
  split_ifs <;> omega

/-- Witness for C7 at N = 10 with bands (10, 90) and the wider (5, 95). -/
theorem C7_sample_size_monotone_witness :
    sample_size 10 10 90 ≤ sample_size 10 5 95 :=
  C7_sample_size_monotone 10 10 90 5 95 (by norm_num) (by norm_num) (by norm_num)
    (by norm_num) (by norm_num) (by norm_num) (by norm_num) (by norm_num)
    (by norm_num)

/-- C8: the Estimator is a pure deterministic transform.  On an already
sorted sample list the in-place sort leaves the list unchanged, so one run
returns the list itself together with the pure trimmed mean, and running the
estimation phase again on the state left by the first run reproduces the
first run bit for bit. -/
theorem C8_estimator_idempotent (samples : List ℚ) (lo up : ℚ)
    (h : samples.Sorted (· ≤ ·)) :
    estimator_run samples lo up = (samples, estimator samples lo up) ∧
    estimator_run (estimator_run samples lo up).1 lo up =
      estimator_run samples lo up := by
  have hs : samples.insertionSort (· ≤ ·) = samples :=
    List.Sorted.insertionSort_eq h
  constructor
  · simp [estimator_run, estimator, hs]
  · simp [estimator_run, hs]

/-- Witness for C8 on the sorted list [1, 2] with band (1, 60). -/
theorem C8_estimator_idempotent_witness :
    estimator_run [(1:ℚ), 2] 1 60 = ([(1:ℚ), 2], estimator [(1:ℚ), 2] 1 60) ∧
    estimator_run (estimator_run [(1:ℚ), 2] 1 60).1 1 60 =
      estimator_run [(1:ℚ), 2] 1 60 :=
  C8_estimator_idempotent [(1:ℚ), 2] 1 60 (by decide)

/-- C9: an iteration count parsed as 0 passes validation (the parameter d is
the irrelevant built-in default), the measurement vector stays empty, the
clamp upper_index = size - 1 wraps in size_t arithmetic to 2 ^ 64 - 1 under
the default band (1, 10), the summation window is then non-empty and every
index in it is out of range for the empty vector. -/
theorem C9_zero_iterations_wraparound (d : Int) :
    validateArgs d 2 (some 0) none none ≠ ArgResult.err ∧
    upper_index 0 10 = SIZE_T_MOD - 1 ∧
    lower_index 0 1 10 = 0 ∧
    0 ∈ Finset.Ico (lower_index 0 1 10) (upper_index 0 10) ∧
    (∀ i ∈ Finset.Ico (lower_index 0 1 10) (upper_index 0 10),
      ¬ i < ([] : List ℚ).length) := by
  have hu : upper_index 0 10 = SIZE_T_MOD - 1 := by
    norm_num [upper_index, raw_index, size_t_sub]
  have hl : lower_index 0 1 10 = 0 := by
    norm_num [lower_index, upper_index, raw_index, size_t_sub, SIZE_T_MOD]
  refine ⟨?_, hu, hl, ?_, ?_⟩
  · norm_num [validateArgs, parsed_iterations, parsed_upper, parsed_lower]
    exact fun hcon => ArgResult.noConfusion hcon
  · rw [Finset.mem_Ico, hl, hu]
    norm_num [SIZE_T_MOD]
  · intro i _
    simp

/-- Witness for C9 with the built-in default instantiated to 1000. -/
theorem C9_zero_iterations_wraparound_witness :
    validateArgs 1000 2 (some 0) none none ≠ ArgResult.err ∧
    upper_index 0 10 = SIZE_T_MOD - 1 ∧
    lower_index 0 1 10 = 0 ∧
    0 ∈ Finset.Ico (lower_index 0 1 10) (upper_index 0 10) ∧
    (∀ i ∈ Finset.Ico (lower_index 0 1 10) (upper_index 0 10),
      ¬ i < ([] : List ℚ).length) :=
  C9_zero_iterations_wraparound 1000

/-- C10: on a non-empty sample list with a valid band, an empty adjusted
window forces both indices to 0 and the summation loop adds no terms, so the
result is exactly 0 whatever the sample values. -/
theorem C10_empty_window_zero (samples : List ℚ) (lo up : ℚ)
    (hn : 1 ≤ samples.length) (h0 : 0 ≤ lo) (hlu : lo < up) (hup : up < 100)
    (hw : lower_index samples.length lo up = upper_index samples.length up) :
    lower_index samples.length lo up = 0 ∧
    upper_index samples.length up = 0 ∧
    estimator samples lo up = 0 := by
  have hz := lower_index_eq_upper samples.length lo up hw
  refine ⟨by omega, hz, ?_⟩
  rw [estimator, estimate, trimmed_sum, List.length_insertionSort, hw, hz]
  simp

/-- Witness for C10 on the singleton list [5] with band (1, 10). -/
theorem C10_empty_window_zero_witness :
    lower_index 1 1 10 = 0 ∧ upper_index 1 10 = 0 ∧ estimator [(5:ℚ)] 1 10 = 0 :=
  C10_empty_window_zero [(5:ℚ)] 1 10 (by norm_num) (by norm_num) (by norm_num)
    (by norm_num)
    (show lower_index 1 1 10 = upper_index 1 10 by
      norm_num [lower_index, upper_index, raw_index])

end BenchArch
